import Mathlib

/-!
Verification of the `vingo` text-template engine (package `vingo`,
files `eval.go`, split into an expression evaluator, a tokenizer/parser,
and a cached `Render` entry point).

Strings are modelled as `List Char` (Go strings are byte sequences; every
input considered here is ASCII, where the two coincide).  Go's dynamically
typed `interface{}` context values are modelled by the closed union `Value`.
Floating-point literals and values are outside the model: no claim below
involves them, and the `strconv.ParseFloat` fallbacks of the source are
therefore modelled as accepting integer-shaped strings only (`goAtoi`).
-/

abbrev Str := List Char

/-- Whitespace class of Go's `unicode.IsSpace` / regexp `\s`, restricted to
ASCII: space, tab, newline, carriage return, vertical tab, form feed. -/
def isGoSpace (c : Char) : Bool :=
  c = ' ' || c = '\t' || c = '\n' || c = '\r' || c = Char.ofNat 11 || c = Char.ofNat 12

/-- Model of `strings.TrimSpace`. -/
def trimSpace (s : Str) : Str :=
  ((s.dropWhile isGoSpace).reverse.dropWhile isGoSpace).reverse

/-- Whether `p` is a prefix of `s` (Go `strings.HasPrefix`). -/
def strStarts : Str → Str → Bool
  | [], _ => true
  | _ :: _, [] => false
  | a :: p, b :: s => a = b && strStarts p s

/-- Whether `p` is a suffix of `s` (Go `strings.HasSuffix`). -/
def strEnds (p s : Str) : Bool :=
  strStarts p.reverse s.reverse

/-- Model of `strings.Fields`: split on runs of whitespace. -/
def fieldsAux (cur : Str) : Str → List Str
  | [] => if cur = [] then [] else [cur.reverse]
  | c :: rest =>
    if isGoSpace c then
      if cur = [] then fieldsAux [] rest else cur.reverse :: fieldsAux [] rest
    else fieldsAux (c :: cur) rest

/-- Model of `strings.Fields`. -/
def goFields (s : Str) : List Str :=
  fieldsAux [] s

/-- Model of `strings.Split(s, sep)` for a single-character separator
(used for `"."`, `":"`, `","`). -/
def splitAll1 (sep : Char) : Str → List Str
  | [] => [[]]
  | c :: rest =>
    if c = sep then [] :: splitAll1 sep rest
    else
      match splitAll1 sep rest with
      | [] => [[c]]
      | h :: t => (c :: h) :: t

/-- Model of `strings.SplitN(s, sep, 2)` for a single-character separator:
`some (before, after)` around the first occurrence, `none` if absent. -/
def splitFirst1 (sep : Char) : Str → Option (Str × Str)
  | [] => none
  | c :: rest =>
    if c = sep then some ([], rest)
    else (splitFirst1 sep rest).map (fun p => (c :: p.1, p.2))

/-- Model of `strings.Split(s, sep)` for a two-character separator
(used for the open delimiter `<` `{`). -/
def splitAll2 (a b : Char) : Str → List Str
  | [] => [[]]
  | [c] => [[c]]
  | c :: d :: rest =>
    if c = a && d = b then [] :: splitAll2 a b rest
    else
      match splitAll2 a b (d :: rest) with
      | [] => [[c]]
      | h :: t => (c :: h) :: t

/-- Model of `strings.SplitN(s, sep, 2)` for a two-character separator
(used for the close delimiter `}` `>`). -/
def splitFirst2 (a b : Char) : Str → Option (Str × Str)
  | [] => none
  | [_] => none
  | c :: d :: rest =>
    if c = a && d = b then some ([], rest)
    else (splitFirst2 a b (d :: rest)).map (fun p => (c :: p.1, p.2))

/-- Go byte-wise lexicographic `<` on strings (ASCII code points). -/
def strLtB : Str → Str → Bool
  | [], [] => false
  | [], _ :: _ => true
  | _ :: _, [] => false
  | a :: as1, b :: bs1 =>
    if a.toNat < b.toNat then true
    else if b.toNat < a.toNat then false
    else strLtB as1 bs1

-- -------------------- Value / Context model --------------------

/-- Closed union modelling the dynamically typed `interface{}` values the
engine manipulates: nil, bool, integer, string, slice, string-keyed map,
and struct (record).  Floats are outside the model (no claim uses them). -/
inductive Value where
  | vNil
  | vBool (b : Bool)
  | vInt (n : Int)
  | vStr (s : Str)
  | vList (l : List Value)
  | vMap (m : List (Str × Value))
  | vRec (fields : List (Str × Value))
deriving Repr

/-- Decidable equality on `Except`, so concrete evaluation results can be
settled by `decide`. -/
instance {e a : Type} [DecidableEq e] [DecidableEq a] : DecidableEq (Except e a) := fun x y =>
  match x, y with
  | .error u, .error v =>
    if h : u = v then .isTrue (h ▸ rfl) else .isFalse (fun hh => h (Except.error.inj hh))
  | .ok u, .ok v =>
    if h : u = v then .isTrue (h ▸ rfl) else .isFalse (fun hh => h (Except.ok.inj hh))
  | .error _, .ok _ => .isFalse (fun hh => Except.noConfusion hh)
  | .ok _, .error _ => .isFalse (fun hh => Except.noConfusion hh)

/-- The runtime data context `map[string]interface{}`, modelled as an
association list; Go maps have unique keys, which theorems assume via
`ctxNodup` where it matters. -/
abbrev Ctx := List (Str × Value)

/-- First-match association-list read, modelling a Go map read. -/
def mapGet (m : List (Str × Value)) (k : Str) : Option Value :=
  match m with
  | [] => none
  | (k0, v) :: rest => if k0 = k then some v else mapGet rest k

/-- Remove every binding of `k`. -/
def eraseKey (k : Str) : List (Str × Value) → List (Str × Value)
  | [] => []
  | (k0, v) :: rest =>
    if k0 = k then eraseKey k rest else (k0, v) :: eraseKey k rest

/-- Go map assignment `m[k] = v`: replaces any prior binding of `k`. -/
def mapSet (m : List (Str × Value)) (k : Str) (v : Value) : List (Str × Value) :=
  (k, v) :: eraseKey k m

/-- Keys of a context are pairwise distinct (always true of a Go map). -/
def ctxNodup (m : List (Str × Value)) : Prop :=
  (m.map Prod.fst).Nodup

/-- Model of `shallowCopyMap`: a fresh map holding the same entries,
built by inserting each entry of `m` in turn. -/
def shallowCopyMap (m : Ctx) : Ctx :=
  m.foldl (fun n kv => mapSet n kv.1 kv.2) []

mutual
/-- Model of `fmt.Sprintf("%v", v)`: the natural textual representation
used by the evaluator for string comparison and by the renderer for
output.  Slices print as `[e1 e2 ...]`, maps as `map[k1:v1 ...]`, structs
as brace-delimited field values.  Go's `fmt` prints map entries in sorted
key order; the model prints them in stored order — the two agree on the
empty and single-entry maps the claims reach, and no claim stringifies a
multi-entry map. -/
def goToString : Value → Str
  | .vNil => "<nil>".toList
  | .vBool true => "true".toList
  | .vBool false => "false".toList
  | .vInt n => (toString n).toList
  | .vStr s => s
  | .vList l => '[' :: (goJoinVals l ++ [']'])
  | .vMap m => "map[".toList ++ (goJoinEntries m ++ [']'])
  | .vRec fs => Char.ofNat 123 :: (goJoinFields fs ++ [Char.ofNat 125])

/-- Space-separated `%v` forms of slice elements. -/
def goJoinVals : List Value → Str
  | [] => []
  | [v] => goToString v
  | v :: rest => goToString v ++ (' ' :: goJoinVals rest)

/-- Space-separated `key:value` forms of map entries. -/
def goJoinEntries : List (Str × Value) → Str
  | [] => []
  | [(k, v)] => k ++ (':' :: goToString v)
  | (k, v) :: rest => (k ++ (':' :: goToString v)) ++ (' ' :: goJoinEntries rest)

/-- Space-separated `%v` forms of struct field values. -/
def goJoinFields : List (Str × Value) → Str
  | [] => []
  | [(_, v)] => goToString v
  | (_, v) :: rest => goToString v ++ (' ' :: goJoinFields rest)
end

/-- Digits-only decimal reading used by `goAtoi`. -/
def digitsToNat (s : Str) : Option Nat :=
  if s = [] then none
  else if s.all Char.isDigit then
    some (s.foldl (fun a c => a * 10 + (c.toNat - 48)) 0)
  else none

/-- Model of `strconv.Atoi`: optional sign followed by decimal digits.
(Go additionally errors on 64-bit overflow; the claims stay far below.) -/
def goAtoi : Str → Option Int
  | [] => none
  | '+' :: ds => (digitsToNat ds).map Int.ofNat
  | '-' :: ds => (digitsToNat ds).map (fun n => -(n : Int))
  | ds => (digitsToNat ds).map Int.ofNat

/-- Double-quote character. -/
def dqChar : Char := Char.ofNat 34

/-- Single-quote character. -/
def sqChar : Char := Char.ofNat 39

/-- Backslash character. -/
def bsChar : Char := Char.ofNat 92

/-- Model of the successful cases of `strconv.Unquote` exercised here: a
double-quoted string whose content is free of quotes and escapes, or a
single-quoted single-character literal.  On contents with escape
sequences Go may succeed where this model steps aside; no claim below
involves escape sequences. -/
def goUnquote (s : Str) : Option Str :=
  if s.length ≥ 2 && s.head? = some dqChar && s.getLast? = some dqChar then
    let content := (s.drop 1).dropLast
    if content.all (fun c => c ≠ dqChar && c ≠ bsChar) then some content else none
  else if s.length = 3 && s.head? = some sqChar && s.getLast? = some sqChar then
    let content := (s.drop 1).dropLast
    if content.all (fun c => c ≠ sqChar && c ≠ bsChar) then some content else none
  else none

/-- Quoted-looking test of `lookup` / `literalFromString`: starts and ends
with a double quote, or starts and ends with a single quote. -/
def isQuotedLike (p : Str) : Bool :=
  (strStarts [dqChar] p && strEnds [dqChar] p) ||
    (strStarts [sqChar] p && strEnds [sqChar] p)

/-- Dotted-path walk of `lookup`: maps are indexed by key, structs by
field name, anything else fails. -/
def lookupWalk : Value → List Str → Option Value
  | cur, [] => some cur
  | cur, seg :: rest =>
    match cur with
    | .vMap m =>
      match mapGet m seg with
      | some v => lookupWalk v rest
      | none => none
    | .vRec fs =>
      match mapGet fs seg with
      | some v => lookupWalk v rest
      | none => none
    | _ => none

/-- Model of `lookup`: literals (quoted string, integer, boolean) resolve
to themselves, otherwise the trimmed path is split on `.` and walked
through the context.  `none` is Go's `(nil, false)`. -/
def lookup (data : Ctx) (path : Str) : Option Value :=
  let p := trimSpace path
  if p = [] then none
  else
    match (if isQuotedLike p then goUnquote p else none) with
    | some u => some (.vStr u)
    | none =>
      match goAtoi p with
      | some n => some (.vInt n)
      | none =>
        -- strconv.ParseFloat fallback omitted: floats are outside the model
        if p = "true".toList then some (.vBool true)
        else if p = "false".toList then some (.vBool false)
        else lookupWalk (.vMap data) (splitAll1 '.' p)

/-- Model of `lookupVal`: the value, with failure flattened to nil. -/
def lookupVal (data : Ctx) (path : Str) : Value :=
  match lookup data path with
  | some v => v
  | none => .vNil

/-- Model of `literalFromString`: quoted → unquoted string (falling back
to the raw inner slice when `Unquote` fails; Go panics on the 1-character
string consisting of a lone quote — that input is unreachable below),
then `true`/`false`, then integer, then plain string.  The
`strconv.ParseFloat` case is outside the model. -/
def literalFromString (s0 : Str) : Value :=
  let s := trimSpace s0
  if isQuotedLike s then
    match goUnquote s with
    | some u => .vStr u
    | none => .vStr ((s.drop 1).dropLast)
  else if s = "true".toList then .vBool true
  else if s = "false".toList then .vBool false
  else
    match goAtoi s with
    | some n => .vInt n
    | none => .vStr s

/-- Model of `toFloat` restricted to integers: an `int` value converts
directly; any other value is formatted with `%v` and re-parsed (Go via
`strconv.ParseFloat`, here via `goAtoi`). -/
def toNum (v : Value) : Option Int :=
  match v with
  | .vInt n => some n
  | _ =>
    let s := goToString v
    if s ≠ [] then goAtoi s else none

/-- Evaluation errors of the condition evaluator, mirroring the `error`
values the Go code can produce.  `indexOutOfRange` marks the runtime
panic a trailing logical operator triggers in `evalCondition`. -/
inductive EvalErr where
  | unknownLogicalOp (op : Str)
  | invalidComparison (cond : Str)
  | unsupportedComparison
  | indexOutOfRange
deriving Repr, DecidableEq

/-- Numeric comparison dispatch of `compareValues`; `none` when `op` is
not one of the six operators (Go's switch then falls through). -/
def opCmpNum (x y : Int) (op : Str) : Option Bool :=
  if op = "==".toList then some (decide (x = y))
  else if op = "!=".toList then some (decide (x ≠ y))
  else if op = ">".toList then some (decide (y < x))
  else if op = "<".toList then some (decide (x < y))
  else if op = ">=".toList then some (decide (y ≤ x))
  else if op = "<=".toList then some (decide (x ≤ y))
  else none

/-- String comparison dispatch of `compareValues`, lexicographic as in Go. -/
def opCmpStr (a b : Str) (op : Str) : Option Bool :=
  if op = "==".toList then some (decide (a = b))
  else if op = "!=".toList then some (decide (a ≠ b))
  else if op = ">".toList then some (strLtB b a)
  else if op = "<".toList then some (strLtB a b)
  else if op = ">=".toList then some (!strLtB a b)
  else if op = "<=".toList then some (!strLtB b a)
  else none

/-- Final fallback of `compareValues`: stringify both operands and compare
lexicographically; an operator outside the six is an error. -/
def compareStrings (a b : Value) (op : Str) : Except EvalErr Bool :=
  match opCmpStr (goToString a) (goToString b) op with
  | some r => .ok r
  | none => .error .unsupportedComparison

/-- Boolean section of `compareValues`: two booleans admit `==`/`!=`;
any other operator falls through to the string comparison below. -/
def compareRest (a b : Value) (op : Str) : Except EvalErr Bool :=
  match a, b with
  | .vBool ab, .vBool bb =>
    if op = "==".toList then .ok (ab == bb)
    else if op = "!=".toList then .ok (ab != bb)
    else compareStrings a b op
  | _, _ => compareStrings a b op

/-- Model of `compareValues`: numeric comparison when both operands
coerce to numbers, then the boolean section, then string comparison. -/
def compareValues (a b : Value) (op : Str) : Except EvalErr Bool :=
  match toNum a, toNum b with
  | some af, some bf =>
    match opCmpNum af bf op with
    | some r => .ok r
    | none => compareRest a b op
  | _, _ => compareRest a b op

/-- Model of `condTruthy`: nil is false, a boolean is itself, a string is
non-emptiness, a number is non-zeroness, slices and maps are
non-emptiness, anything else (a struct) is true. -/
def condTruthy : Value → Bool
  | .vNil => false
  | .vBool b => b
  | .vStr s => decide (s ≠ [])
  | .vInt n => decide (n ≠ 0)
  | .vList l => !l.isEmpty
  | .vMap m => !m.isEmpty
  | .vRec _ => true

-- -------------------- compOpRe and condition evaluation --------------------

/-- Operator recognition at the head of a string, in the alternation
order of `compOpRe` (`==`, `!=`, `>=`, `<=`, `>`, `<`). -/
def opAt : Str → Option (Str × Str)
  | '=' :: '=' :: r => some ("==".toList, r)
  | '!' :: '=' :: r => some ("!=".toList, r)
  | '>' :: '=' :: r => some (">=".toList, r)
  | '<' :: '=' :: r => some ("<=".toList, r)
  | '>' :: r => some (">".toList, r)
  | '<' :: r => some ("<".toList, r)
  | _ => none

/-- Leftmost match of `compOpRe` (`\s*(==|!=|>=|<=|>|<)\s*`) against a
string, returning the operator together with the two halves the match
separates (what `FindStringSubmatch` and `Split(cond, 2)` jointly give
the Go code).  `acc` is the reversed portion already scanned. -/
def compOpSplitAux (acc : Str) : Str → Option (Str × Str × Str)
  | [] => none
  | c :: rest =>
    match opAt (c :: rest) with
    | some (op, after) =>
      let wsBefore := acc.takeWhile isGoSpace
      some (op, (acc.drop wsBefore.length).reverse, after.dropWhile isGoSpace)
    | none => compOpSplitAux (c :: acc) rest

/-- Leftmost `compOpRe` match: `some (op, left, right)` or `none`. -/
def compOpSplit (s : Str) : Option (Str × Str × Str) :=
  compOpSplitAux [] s

/-- Model of `evalSimpleCond`: a comparison splits at the first operator
and compares the resolved operands; an operand with no operator is a
truthiness test of its resolved value. -/
def evalSimpleCond (cond : Str) (data : Ctx) : Except EvalErr Bool :=
  match compOpSplit cond with
  | some (op, left0, right0) =>
    -- Go re-derives op and the two parts from the same leftmost match;
    -- its `len(parts) != 2` error branch is unreachable.
    let left := trimSpace left0
    let right := trimSpace right0
    let lv := match lookup data left with
      | some v => v
      | none => literalFromString left
    let rv := match lookup data right with
      | some v => v
      | none => literalFromString right
    compareValues lv rv op
  | none =>
    match lookup data cond with
    | some v => .ok (condTruthy v)
    | none => .ok (condTruthy (literalFromString cond))

/-- Model of `splitLogical`: rebuild the whitespace-split words into an
alternating `[cond, op, cond, op, ...]` list around the bare words
`and` / `or`. -/
def splitLogicalAux (parts : List Str) (cur : Str) : List Str → List Str
  | [] => if cur = [] then parts else parts ++ [trimSpace cur]
  | w :: rest =>
    if w = "and".toList || w = "or".toList then
      splitLogicalAux (parts ++ [trimSpace cur, w]) [] rest
    else if cur = [] then splitLogicalAux parts w rest
    else splitLogicalAux parts (cur ++ (' ' :: w)) rest

/-- Model of `splitLogical`. -/
def splitLogical (expr : Str) : List Str :=
  splitLogicalAux [] [] (goFields (trimSpace expr))

/-- Loop of `evalCondition` over `[op, cond, op, cond, ...]`, strictly
left to right with no precedence.  A trailing operator with no operand
after it makes the Go code index past the slice end and panic, modelled
by `indexOutOfRange`. -/
def evalCondLoop (data : Ctx) : Bool → List Str → Except EvalErr Bool
  | res, [] => .ok res
  | _, [_] => .error .indexOutOfRange
  | res, op0 :: nextExpr :: rest =>
    let op := trimSpace op0
    match evalSimpleCond (trimSpace nextExpr) data with
    | .error e => .error e
    | .ok nextRes =>
      if op = "and".toList then evalCondLoop data (res && nextRes) rest
      else if op = "or".toList then evalCondLoop data (res || nextRes) rest
      else .error (.unknownLogicalOp op)

/-- Model of `evalCondition`: split on the logical keywords, then fold
the simple comparisons strictly left to right. -/
def evalCondition (expr : Str) (data : Ctx) : Except EvalErr Bool :=
  match splitLogical expr with
  | [] => .ok false
  | first :: rest =>
    match evalSimpleCond (trimSpace first) data with
    | .error e => .error e
    | .ok res => evalCondLoop data res rest

/-- The derived context `evalConditionWithValue` evaluates against: the
reserved subject variable bound into a shallow copy of the caller's map. -/
def switchCtx (value : Value) (data : Ctx) : Ctx :=
  mapSet (shallowCopyMap data) ("__switch__".toList) value

/-- Model of `evalConditionWithValue`: with an operator present, evaluate
the expression against the derived context; otherwise compare the subject
with the literal, then with its textual form, then fall back to a full
condition evaluation, any error becoming `false`. -/
def evalConditionWithValue (condExpr : Str) (value : Value) (data : Ctx) :
    Except EvalErr Bool :=
  let tmp := switchCtx value data
  if (compOpSplit condExpr).isSome then evalCondition condExpr tmp
  else
    let lit := literalFromString (trimSpace condExpr)
    match compareValues value lit ("==".toList) with
    | .ok true => .ok true
    | _ =>
      if goToString value = goToString lit then .ok true
      else
        match evalCondition condExpr tmp with
        | .ok res => .ok res
        | .error _ => .ok false

-- -------------------- Tokenizer --------------------

/-- Token kinds of the tokenizer (`TokenType`). -/
inductive TokenType where
  | TText
  | TVar
  | TIf
  | TElseIf
  | TElse
  | TEndIf
  | TFor
  | TEndFor
  | TSwitch
  | TCase
  | TDefault
  | TEndSwitch
deriving Repr, DecidableEq

/-- One lexical unit (`Token`): kind, primary value, default literal for
variables (Go's unmatched capture group is the empty string, modelled as
`[]`), and the raw tag text. -/
structure Token where
  type : TokenType
  value : Str := []
  dflt : Str := []
  raw : Str := []
deriving Repr, DecidableEq

/-- Word character class of Go regexp `\w`: ASCII letters, digits, `_`. -/
def isWordChar (c : Char) : Bool :=
  c.isAlpha || c.isDigit || c = '_'

/-- Keyword-headed tag match: the pattern `^kw\s+(.+)$` against a
whitespace-trimmed tag (used for `if`, `elseif`, `switch`, `case`).
The trimmed input never ends in whitespace, so the capture after the
maximal whitespace run is nonempty exactly when the match exists; `.`
excludes the newline. -/
def kwArgMatch (kw : Str) (tag : Str) : Option Str :=
  if strStarts kw tag then
    match tag.drop kw.length with
    | [] => none
    | c :: r0 =>
      if isGoSpace c then
        let rest := (c :: r0).dropWhile isGoSpace
        if !rest.isEmpty && !rest.contains '\n' then some rest else none
      else none
  else none

/-- Greedy-first-capture match of `(.+)\s+in\s+(.+)$` against the tail of
a `for` tag: Go's leftmost-first semantics maximise the first capture, so
the split lands at the last position whose remainder still reads
whitespace, `in`, whitespace, nonempty expression.  `splitCheckFor r k`
tests a single split position (capture 1 = the first `k` characters). -/
def splitCheckFor (r : Str) (k : Nat) : Option (Str × Str) :=
  if k = 0 then none
  else
    let g1 := r.take k
    let rest := r.drop k
    if g1.contains '\n' then none
    else if (rest.takeWhile isGoSpace).isEmpty then none
    else
      let rest2 := rest.dropWhile isGoSpace
      if strStarts ("in".toList) rest2 then
        let rest3 := rest2.drop 2
        if (rest3.takeWhile isGoSpace).isEmpty then none
        else
          let g2 := rest3.dropWhile isGoSpace
          if !g2.isEmpty && !g2.contains '\n' then some (g1, g2) else none
      else none

/-- The regex engine's preferred (largest-capture-1) split of the `for`
tail, scanning split positions from the right. -/
def forTailMatch (r : Str) : Option (Str × Str) :=
  (List.range r.length).reverse.findSome? (splitCheckFor r)

/-- Match of `forPattern` (`^for\s+(.+)\s+in\s+(.+)$`) against a trimmed
tag.  The leading `\s+` is greedy; on trimmed input the backtracking
corner where it could yield whitespace into the first capture (a header
like `for   in x`) is modelled by retrying shorter whitespace runs, in
the engine's preference order. -/
def forMatch (tag : Str) : Option (Str × Str) :=
  if strStarts ("for".toList) tag then
    let r := tag.drop 3
    let wsLen := (r.takeWhile isGoSpace).length
    ((List.range wsLen).map (fun d => wsLen - d)).findSome?
      (fun w => if w = 0 then none else forTailMatch (r.drop w))
  else none

/-- Maximal-munch scan of the dotted name `\w+(\.\w+)*` of `varPattern`:
word characters are consumed, a dot is consumed only when a word
character follows; returns the name and the unconsumed rest.  The caller
guarantees the input starts with a word character. -/
def dottedScan (acc : Str) : Str → Str × Str
  | [] => (acc.reverse, [])
  | ['.'] => (acc.reverse, ['.'])
  | '.' :: c :: r =>
    if isWordChar c then dottedScan (c :: '.' :: acc) r
    else (acc.reverse, '.' :: c :: r)
  | c :: r =>
    if isWordChar c then dottedScan (c :: acc) r
    else (acc.reverse, c :: r)

/-- Close of the lazy default capture `(.*?)"\s*$` of `varPattern`: the
first quote position whose tail is pure whitespace; the capture (before
that quote) must be newline-free since `.` excludes the newline. -/
def lazyCloseQuote (acc : Str) : Str → Option Str
  | [] => none
  | c :: r =>
    if c = dqChar && r.all isGoSpace then some acc.reverse
    else if c = '\n' then none
    else lazyCloseQuote (c :: acc) r

/-- Match of `varPattern`
(`^\s*(\w+(?:\.\w+)*)(?:\s*\|\s*"(.*?)")?\s*$`) against a trimmed tag:
`some (name, defaultLiteral)`, the default being `[]` when the optional
group is absent (Go's unmatched capture is the empty string). -/
def varMatch (tag : Str) : Option (Str × Str) :=
  let s := tag.dropWhile isGoSpace
  match s with
  | [] => none
  | c :: _ =>
    if !isWordChar c then none
    else
      let scanned := dottedScan [] s
      let name := scanned.1
      let rest := scanned.2.dropWhile isGoSpace
      match rest with
      | [] => some (name, [])
      | '|' :: r2 =>
        match r2.dropWhile isGoSpace with
        | c2 :: r3 =>
          if c2 = dqChar then
            match lazyCloseQuote [] r3 with
            | some d => some (name, d)
            | none => none
          else none
        | [] => none
      | _ => none

/-- Classification cascade of `tokenize`: the tag body is matched, in
source order, against the fixed grammars; the first match wins, and a tag
matching none becomes a literal Text token carrying the delimiters. -/
def classify (tag : Str) : Token :=
  match kwArgMatch ("if".toList) tag with
  | some m => { type := .TIf, value := m, raw := tag }
  | none =>
  match kwArgMatch ("elseif".toList) tag with
  | some m => { type := .TElseIf, value := m, raw := tag }
  | none =>
  if tag = "else".toList then { type := .TElse, raw := tag }
  else if tag = "/if".toList then { type := .TEndIf, raw := tag }
  else
  match forMatch tag with
  | some m =>
    { type := .TFor, value := trimSpace m.1 ++ (':' :: trimSpace m.2), raw := tag }
  | none =>
  if tag = "/for".toList then { type := .TEndFor, raw := tag }
  else
  match kwArgMatch ("switch".toList) tag with
  | some m => { type := .TSwitch, value := m, raw := tag }
  | none =>
  match kwArgMatch ("case".toList) tag with
  | some m => { type := .TCase, value := m, raw := tag }
  | none =>
  if tag = "default".toList then { type := .TDefault, raw := tag }
  else if tag = "/switch".toList then { type := .TEndSwitch, raw := tag }
  else
  match varMatch tag with
  | some (name, d) => { type := .TVar, value := name, dflt := d, raw := tag }
  | none =>
    { type := .TText,
      value := '<' :: Char.ofNat 123 :: (tag ++ [Char.ofNat 125, '>']),
      raw := tag }

/-- Per-chunk step of `tokenize`: a chunk containing the close marker
contributes its classified tag and any trailing text; a chunk without it
is emitted as text with the open marker prepended — including, notably,
the first chunk of the split, which was not preceded by an open marker. -/
def tokenizePart (tokens : List Token) (part : Str) : List Token :=
  if part = [] then tokens
  else
    match splitFirst2 (Char.ofNat 125) '>' part with
    | some (rawTag, rest) =>
      let tag := trimSpace rawTag
      let tokens2 := tokens ++ [classify tag]
      if rest = [] then tokens2 else tokens2 ++ [{ type := .TText, value := rest }]
    | none => tokens ++ [{ type := .TText, value := '<' :: Char.ofNat 123 :: part }]

/-- Model of `tokenize`: split the input on the open marker and process
each chunk in order. -/
def tokenize (input : Str) : List Token :=
  (splitAll2 '<' (Char.ofNat 123) input).foldl tokenizePart []

-- -------------------- Parser (tokens → AST) --------------------

/-- AST node union.  The Go side declares `TextNode`, `VarNode` (name,
default, filters), `IfNode` (branches of expression × body, plus else
body), `ForNode` (index variable, item variable, list expression, body)
and `SwitchNode` (subject expression, cases of condition × body, default
body); the construction sites in `compileTokens`/`parseIf`/`parseFor`/
`parseSwitch` fix these shapes. -/
inductive Node where
  | text (content : Str)
  | varN (name : Str) (dflt : Str) (filters : List Str)
  | ifN (branches : List (Str × List Node)) (elseBody : List Node)
  | forN (indexVar itemVar listExpr : Str) (body : List Node)
  | switchN (expr : Str) (cases : List (Str × List Node)) (defaultBody : List Node)
deriving Repr

/-- Parse errors, mirroring the `error` values of the compile stage.
`outOfFuel` is an artifact of the fuel-indexed recursion below and is
unreachable at the fuel `compileTokens` supplies; the `unclosed*`
constructors are the errors that identify the start token of the
unterminated construct. -/
inductive ParseErr where
  | outOfFuel
  | unexpectedTop (t : TokenType) (pos : Nat) (raw : Str)
  | unexpectedInIf (t : TokenType)
  | unexpectedInFor (t : TokenType)
  | unexpectedInSwitch (t : TokenType)
  | invalidForTag (raw : Str)
  | unclosedIf (start : Nat)
  | unclosedFor (start : Nat)
  | unclosedSwitch (start : Nat)
deriving Repr, DecidableEq

/-- Append a node to the body of the last branch (`*currentBody` when the
current body points into the branch list). -/
def appendToLastBranch (n : Node) : List (Str × List Node) → List (Str × List Node)
  | [] => []
  | [(e, b)] => [(e, b ++ [n])]
  | x :: rest => x :: appendToLastBranch n rest

/-- Append a node to the if-parser's current body: the else body when the
`else` tag has been seen, the last branch's body otherwise. -/
def ifAppend (branches : List (Str × List Node)) (elseBody : List Node)
    (inElse : Bool) (n : Node) : List (Str × List Node) × List Node :=
  if inElse then (branches, elseBody ++ [n])
  else (appendToLastBranch n branches, elseBody)

/-- The switch parser's `flushCase`: a pending labelled case is appended
to the case list; an unlabelled nonempty body becomes the default body. -/
def flushCase (cases : List (Str × List Node)) (dflt : List Node)
    (curCond : Str) (curBody : List Node) : List (Str × List Node) × List Node :=
  if curCond ≠ [] then (cases ++ [(curCond, curBody)], dflt)
  else if !curBody.isEmpty then (cases, curBody)
  else (cases, dflt)

mutual
/-- Top-level loop of `compileTokens`: text and variable tokens become
leaves, the three construct openers recurse, and any other token at the
top level is a hard error naming the token, its position and its raw
text.  The first argument is recursion fuel (the source loops with a
cursor; `compileTokens` supplies fuel exceeding any reachable recursion
depth). -/
def compileLoop (fuel : Nat) (tokens : List Token) (i : Nat) (nodes : List Node) :
    Except ParseErr (List Node) :=
  match fuel with
  | 0 => .error .outOfFuel
  | fuel + 1 =>
    match tokens[i]? with
    | none => .ok nodes
    | some t =>
      match t.type with
      | .TText => compileLoop fuel tokens (i + 1) (nodes ++ [.text t.value])
      | .TVar => compileLoop fuel tokens (i + 1) (nodes ++ [.varN t.value t.dflt []])
      | .TIf =>
        match parseIf fuel tokens i with
        | .error e => .error e
        | .ok (nd, ni) => compileLoop fuel tokens ni (nodes ++ [nd])
      | .TFor =>
        match parseFor fuel tokens i with
        | .error e => .error e
        | .ok (nd, ni) => compileLoop fuel tokens ni (nodes ++ [nd])
      | .TSwitch =>
        match parseSwitch fuel tokens i with
        | .error e => .error e
        | .ok (nd, ni) => compileLoop fuel tokens ni (nodes ++ [nd])
      | _ => .error (.unexpectedTop t.type i t.raw)
termination_by structural fuel

/-- Entry of `parseIf`: seed the branch list with the opening token's
condition and scan the body.  (The source reads `tokens[start]` blindly;
callers guarantee it is in range and a `TIf`.)  The source's `depth`
counter is initialized to zero and never incremented, so its non-zero
branches are unreachable and not modelled. -/
def parseIf (fuel : Nat) (tokens : List Token) (start : Nat) :
    Except ParseErr (Node × Nat) :=
  match fuel with
  | 0 => .error .outOfFuel
  | fuel + 1 =>
    let v := match tokens[start]? with
      | some t => t.value
      | none => []
    parseIfLoop fuel tokens (start + 1) start [(v, [])] [] false
termination_by structural fuel

/-- Body loop of `parseIf`: `elseif` opens a new branch, `else` resets
and targets the else body, nested constructs recurse, the matching
`/if` closes, and a structurally invalid token is a hard error; end of
stream is the unclosed-if error naming the start index. -/
def parseIfLoop (fuel : Nat) (tokens : List Token) (i start : Nat)
    (branches : List (Str × List Node)) (elseBody : List Node) (inElse : Bool) :
    Except ParseErr (Node × Nat) :=
  match fuel with
  | 0 => .error .outOfFuel
  | fuel + 1 =>
    match tokens[i]? with
    | none => .error (.unclosedIf start)
    | some t =>
      match t.type with
      | .TIf =>
        match parseIf fuel tokens i with
        | .error e => .error e
        | .ok (nd, ni) =>
          let st := ifAppend branches elseBody inElse nd
          parseIfLoop fuel tokens ni start st.1 st.2 inElse
      | .TEndIf => .ok (.ifN branches elseBody, i + 1)
      | .TElseIf =>
        parseIfLoop fuel tokens (i + 1) start (branches ++ [(t.value, [])]) elseBody false
      | .TElse => parseIfLoop fuel tokens (i + 1) start branches [] true
      | .TFor =>
        match parseFor fuel tokens i with
        | .error e => .error e
        | .ok (nd, ni) =>
          let st := ifAppend branches elseBody inElse nd
          parseIfLoop fuel tokens ni start st.1 st.2 inElse
      | .TSwitch =>
        match parseSwitch fuel tokens i with
        | .error e => .error e
        | .ok (nd, ni) =>
          let st := ifAppend branches elseBody inElse nd
          parseIfLoop fuel tokens ni start st.1 st.2 inElse
      | .TText =>
        let st := ifAppend branches elseBody inElse (.text t.value)
        parseIfLoop fuel tokens (i + 1) start st.1 st.2 inElse
      | .TVar =>
        let st := ifAppend branches elseBody inElse (.varN t.value t.dflt [])
        parseIfLoop fuel tokens (i + 1) start st.1 st.2 inElse
      | _ => .error (.unexpectedInIf t.type)
termination_by structural fuel

/-- Entry of `parseFor`: split the token value at the first `:` into the
item spec and the list expression (absence is the invalid-for-tag
error), split the item spec at the first comma into index and item
variables, then scan the body. -/
def parseFor (fuel : Nat) (tokens : List Token) (start : Nat) :
    Except ParseErr (Node × Nat) :=
  match fuel with
  | 0 => .error .outOfFuel
  | fuel + 1 =>
    let v := match tokens[start]? with
      | some t => t.value
      | none => []
    let raw := match tokens[start]? with
      | some t => t.raw
      | none => []
    match splitFirst1 ':' v with
    | none => .error (.invalidForTag raw)
    | some (p1, p2) =>
      let left := trimSpace p1
      let listExpr := trimSpace p2
      match splitFirst1 ',' left with
      | some (q1, q2) =>
        parseForLoop fuel tokens (start + 1) start (trimSpace q1) (trimSpace q2) listExpr []
      | none => parseForLoop fuel tokens (start + 1) start [] left listExpr []
termination_by structural fuel

/-- Body loop of `parseFor`; the vestigial `depth` counter is omitted as
in `parseIf`. -/
def parseForLoop (fuel : Nat) (tokens : List Token) (i start : Nat)
    (indexVar itemVar listExpr : Str) (body : List Node) :
    Except ParseErr (Node × Nat) :=
  match fuel with
  | 0 => .error .outOfFuel
  | fuel + 1 =>
    match tokens[i]? with
    | none => .error (.unclosedFor start)
    | some t =>
      match t.type with
      | .TFor =>
        match parseFor fuel tokens i with
        | .error e => .error e
        | .ok (nd, ni) =>
          parseForLoop fuel tokens ni start indexVar itemVar listExpr (body ++ [nd])
      | .TEndFor => .ok (.forN indexVar itemVar listExpr body, i + 1)
      | .TIf =>
        match parseIf fuel tokens i with
        | .error e => .error e
        | .ok (nd, ni) =>
          parseForLoop fuel tokens ni start indexVar itemVar listExpr (body ++ [nd])
      | .TSwitch =>
        match parseSwitch fuel tokens i with
        | .error e => .error e
        | .ok (nd, ni) =>
          parseForLoop fuel tokens ni start indexVar itemVar listExpr (body ++ [nd])
      | .TText =>
        parseForLoop fuel tokens (i + 1) start indexVar itemVar listExpr
          (body ++ [.text t.value])
      | .TVar =>
        parseForLoop fuel tokens (i + 1) start indexVar itemVar listExpr
          (body ++ [.varN t.value t.dflt []])
      | _ => .error (.unexpectedInFor t.type)
termination_by structural fuel

/-- Entry of `parseSwitch`: record the subject expression and scan the
cases with an empty pending case. -/
def parseSwitch (fuel : Nat) (tokens : List Token) (start : Nat) :
    Except ParseErr (Node × Nat) :=
  match fuel with
  | 0 => .error .outOfFuel
  | fuel + 1 =>
    let v := match tokens[start]? with
      | some t => t.value
      | none => []
    parseSwitchLoop fuel tokens (start + 1) start v [] [] [] []
termination_by structural fuel

/-- Body loop of `parseSwitch`: `case`/`default`/`/switch` flush the
pending case (an unlabelled nonempty body becomes the default body, the
last flush winning); nested constructs recurse into the pending body;
the vestigial `depth` counter is omitted as in `parseIf`. -/
def parseSwitchLoop (fuel : Nat) (tokens : List Token) (i start : Nat)
    (expr : Str) (cases : List (Str × List Node)) (dflt : List Node)
    (curCond : Str) (curBody : List Node) : Except ParseErr (Node × Nat) :=
  match fuel with
  | 0 => .error .outOfFuel
  | fuel + 1 =>
    match tokens[i]? with
    | none => .error (.unclosedSwitch start)
    | some t =>
      match t.type with
      | .TSwitch =>
        match parseSwitch fuel tokens i with
        | .error e => .error e
        | .ok (nd, ni) =>
          parseSwitchLoop fuel tokens ni start expr cases dflt curCond (curBody ++ [nd])
      | .TEndSwitch =>
        let fl := flushCase cases dflt curCond curBody
        .ok (.switchN expr fl.1 fl.2, i + 1)
      | .TCase =>
        let fl := flushCase cases dflt curCond curBody
        parseSwitchLoop fuel tokens (i + 1) start expr fl.1 fl.2 t.value []
      | .TDefault =>
        let fl := flushCase cases dflt curCond curBody
        parseSwitchLoop fuel tokens (i + 1) start expr fl.1 fl.2 [] []
      | .TIf =>
        match parseIf fuel tokens i with
        | .error e => .error e
        | .ok (nd, ni) =>
          parseSwitchLoop fuel tokens ni start expr cases dflt curCond (curBody ++ [nd])
      | .TFor =>
        match parseFor fuel tokens i with
        | .error e => .error e
        | .ok (nd, ni) =>
          parseSwitchLoop fuel tokens ni start expr cases dflt curCond (curBody ++ [nd])
      | .TText =>
        parseSwitchLoop fuel tokens (i + 1) start expr cases dflt curCond
          (curBody ++ [.text t.value])
      | .TVar =>
        parseSwitchLoop fuel tokens (i + 1) start expr cases dflt curCond
          (curBody ++ [.varN t.value t.dflt []])
      | _ => .error (.unexpectedInSwitch t.type)
termination_by structural fuel
end

/-- Model of `compileTokens`: run the top-level loop from token zero.
The fuel `2 * tokens.length + 4` exceeds the recursion depth of any run
(each consumed token contributes at most two nested calls). -/
def compileTokens (tokens : List Token) : Except ParseErr (List Node) :=
  compileLoop (2 * tokens.length + 4) tokens 0 []

-- -------------------- Renderer (Node evaluation) --------------------
-- The AST node declarations are constructed and their `Eval` methods
-- called in the repository sources, but the method bodies themselves are
-- not under src/; the functions below are modelled from the spec, §4.4
-- (dispatch by node kind) and §7 (best-effort error policy).

mutual
/-- Weight of a node, used to provision renderer fuel. -/
def nodeWeight : Node → Nat
  | .text _ => 1
  | .varN _ _ _ => 1
  | .ifN brs els => 1 + branchesWeight brs + nodesWeight els
  | .forN _ _ _ body => 1 + nodesWeight body
  | .switchN _ cs d => 1 + branchesWeight cs + nodesWeight d

/-- Weight of a branch or case list. -/
def branchesWeight : List (Str × List Node) → Nat
  | [] => 0
  | (_, b) :: rest => 1 + nodesWeight b + branchesWeight rest

/-- Weight of a node list. -/
def nodesWeight : List Node → Nat
  | [] => 0
  | n :: rest => 1 + nodeWeight n + nodesWeight rest
end

mutual
/-- Weight of a context value, used to provision renderer fuel. -/
def valueWeight : Value → Nat
  | .vList l => 1 + valuesWeight l
  | .vMap m => 1 + entriesWeight m
  | .vRec f => 1 + entriesWeight f
  | _ => 1

/-- Weight of a value list. -/
def valuesWeight : List Value → Nat
  | [] => 0
  | v :: rest => 1 + valueWeight v + valuesWeight rest

/-- Weight of an entry list. -/
def entriesWeight : List (Str × Value) → Nat
  | [] => 0
  | (_, v) :: rest => 1 + valueWeight v + entriesWeight rest
end

mutual
/-- Modelled from the spec: `Eval` of a single node (the node `Eval`
methods are absent from src/).  Text emits its content unmodified; a
variable resolves its dotted path, emitting the value's textual
representation on success and the default literal (empty when none was
supplied) on failure; if/for/switch dispatch below.  The first argument
is recursion fuel; `Render` supplies an amount exceeding the recursion
depth of the source's terminating renderer. -/
def evalNode (fuel : Nat) (data : Ctx) (n : Node) : Str :=
  match fuel with
  | 0 => []
  | fuel + 1 =>
    match n with
    | .text t => t
    | .varN name d _ =>
      match lookup data name with
      | some v => goToString v
      | none => d
    | .ifN branches elseBody => evalIfBranches fuel data branches elseBody
    | .forN indexVar itemVar listExpr body =>
      match lookup data listExpr with
      | some (.vList items) => evalForItems fuel data indexVar itemVar body items 0
      | _ => []
    | .switchN expr cases dflt => evalCases fuel data (lookupVal data expr) cases dflt
termination_by structural fuel

/-- Modelled from the spec: branch selection of an `If` node — render the
body of the first branch whose condition evaluates true, the else body
when none does; a condition evaluation error counts as false (§7). -/
def evalIfBranches (fuel : Nat) (data : Ctx) (branches : List (Str × List Node))
    (elseBody : List Node) : Str :=
  match fuel with
  | 0 => []
  | fuel + 1 =>
    match branches with
    | [] => evalNodes fuel data elseBody
    | (cond, body) :: rest =>
      match evalCondition cond data with
      | .ok true => evalNodes fuel data body
      | _ => evalIfBranches fuel data rest elseBody
termination_by structural fuel

/-- Modelled from the spec: `For` iteration — bind the item variable (and
the 0-based index variable when declared) into a derived context built on
a shallow copy, render the body once per item, and concatenate; the
caller's context is never mutated. -/
def evalForItems (fuel : Nat) (data : Ctx) (indexVar itemVar : Str)
    (body : List Node) (items : List Value) (idx : Nat) : Str :=
  match fuel with
  | 0 => []
  | fuel + 1 =>
    match items with
    | [] => []
    | item :: rest =>
      let ctx1 := mapSet (shallowCopyMap data) itemVar item
      let ctx2 := if indexVar ≠ [] then mapSet ctx1 indexVar (.vInt idx) else ctx1
      evalNodes fuel ctx2 body ++ evalForItems fuel data indexVar itemVar body rest (idx + 1)
termination_by structural fuel

/-- Modelled from the spec: `Switch` case selection — the subject is
resolved once, the first case accepted by `evalConditionWithValue` is
rendered, the default body when none is. -/
def evalCases (fuel : Nat) (data : Ctx) (subject : Value)
    (cases : List (Str × List Node)) (dflt : List Node) : Str :=
  match fuel with
  | 0 => []
  | fuel + 1 =>
    match cases with
    | [] => evalNodes fuel data dflt
    | (cond, body) :: rest =>
      match evalConditionWithValue cond subject data with
      | .ok true => evalNodes fuel data body
      | _ => evalCases fuel data subject rest dflt
termination_by structural fuel

/-- Modelled from the spec: render a node sequence by concatenating the
renders of its nodes in order. -/
def evalNodes (fuel : Nat) (data : Ctx) (nodes : List Node) : Str :=
  match fuel with
  | 0 => []
  | fuel + 1 =>
    match nodes with
    | [] => []
    | n :: rest => evalNode fuel data n ++ evalNodes fuel data rest
termination_by structural fuel
end

-- -------------------- Template cache and Render --------------------

/-- One compiled unit (`Template`): resolved path, root AST, and the
source modification timestamp captured at compile time (modelled as an
integer; `time.Time.Equal` is integer equality). -/
structure Template where
  filepath : Str
  nodes : List Node
  modTime : Int

/-- Generic association-list read (Go map read). -/
def assocGet {α : Type} (m : List (Str × α)) (k : Str) : Option α :=
  match m with
  | [] => none
  | (k0, v) :: rest => if k0 = k then some v else assocGet rest k

/-- Remove every binding of `k` in a generic association list. -/
def assocErase {α : Type} (k : Str) : List (Str × α) → List (Str × α)
  | [] => []
  | (k0, v) :: rest =>
    if k0 = k then assocErase k rest else (k0, v) :: assocErase k rest

/-- Generic association-list write (Go map assignment): replaces any
prior binding of the key. -/
def assocSet {α : Type} (m : List (Str × α)) (k : Str) (v : α) : List (Str × α) :=
  (k, v) :: assocErase k m

/-- The file system visible to `getOrCompile`, modelling `os.Stat` and
`os.ReadFile` as one lookup of content and modification time (the source
issues two calls; their separate failure modes are not distinguished). -/
abbrev FS := List (Str × (Str × Int))

/-- The `tplCache` map: path to compiled template. -/
abbrev Cache := List (Str × Template)

/-- Render-stage errors: file-system failure or a parse error. -/
inductive RenderErr where
  | fileErr (path : Str)
  | parseErr (e : ParseErr)

/-- Model of `getOrCompile`: stat the file; a cached template whose
stored timestamp equals the current one is returned with the cache
untouched; otherwise the file is read, tokenized and parsed — an error
leaves the cache untouched, success stores the new template (replacing
any prior entry for the path) and returns it.  The cache is threaded
explicitly in place of the Go package-level map. -/
def getOrCompile (fs : FS) (cache : Cache) (path : Str) :
    Except RenderErr Template × Cache :=
  match assocGet fs path with
  | none => (.error (.fileErr path), cache)
  | some entry =>
    let mod := entry.2
    let hit :=
      match assocGet cache path with
      | some tpl => if tpl.modTime = mod then some tpl else none
      | none => none
    match hit with
    | some tpl => (.ok tpl, cache)
    | none =>
      match compileTokens (tokenize entry.1) with
      | .error e => (.error (.parseErr e), cache)
      | .ok nodes =>
        let newTpl : Template := ⟨path, nodes, mod⟩
        (.ok newTpl, assocSet cache path newTpl)

/-- Fuel provisioned for one render: comfortably beyond the recursion
depth of the source's terminating tree-walk for the template and data at
hand. -/
def renderFuelFor (nodes : List Node) (data : Ctx) : Nat :=
  (nodesWeight nodes + 2) * ((entriesWeight data + 2) * (nodesWeight nodes + 2))

/-- Model of `Render`: compile (or fetch from cache) the template at
`file` and evaluate its nodes against `data`.  `filepath.Abs` is
modelled as the identity (path canonicalisation is host I/O); the
returned cache models the package-level map after the call. -/
def Render (fs : FS) (cache : Cache) (file : Str) (data : Ctx) :
    Except RenderErr Str × Cache :=
  match getOrCompile fs cache file with
  | (.error e, c2) => (.error e, c2)
  | (.ok tpl, c2) => (.ok (evalNodes (renderFuelFor tpl.nodes data) data tpl.nodes), c2)

-- -------------------- Claim-level predicates --------------------

/-- Whether a token kind opens an If/For/Switch construct. -/
def isOpening : TokenType → Bool
  | .TIf => true
  | .TFor => true
  | .TSwitch => true
  | _ => false

/-- The end-token kind matching a construct opener. -/
def endOf : TokenType → TokenType
  | .TIf => .TEndIf
  | .TFor => .TEndFor
  | .TSwitch => .TEndSwitch
  | t => t

/-- Whether a parse error identifies the start token of an unterminated
construct (only the `unclosed*` errors carry that index). -/
def identifiesStart : ParseErr → Bool
  | .unclosedIf _ => true
  | .unclosedFor _ => true
  | .unclosedSwitch _ => true
  | _ => false

/-- Every construct opener in `[lo, hi)` is eventually followed by an end
token of its kind. -/
def endsCovered (tokens : List Token) (lo hi : Nat) : Prop :=
  ∀ j t, lo ≤ j → j < hi → tokens[j]? = some t → isOpening t.type = true →
    ∃ m u, j < m ∧ tokens[m]? = some u ∧ u.type = endOf t.type

/-- Some token of kind `ty` occurs at a position in `[lo, hi)`. -/
def hasEndIn (tokens : List Token) (ty : TokenType) (lo hi : Nat) : Prop :=
  ∃ m u, lo ≤ m ∧ m < hi ∧ tokens[m]? = some u ∧ u.type = ty

-- -------------------- Helper lemmas --------------------

theorem getElemSomeLt {α : Type} (l : List α) (i : Nat) (a : α)
    (h : l[i]? = some a) : i < l.length := by
  by_contra hn
  rw [List.getElem?_eq_none (Nat.le_of_not_lt hn)] at h
  exact Option.noConfusion h

theorem mapGetEraseNe (m : Ctx) (k k2 : Str) (h : k2 ≠ k) :
    mapGet (eraseKey k m) k2 = mapGet m k2 := by
  induction m with
  | nil => rfl
  | cons e rest ih =>
    obtain ⟨k0, v0⟩ := e
    by_cases hk : k0 = k
    · subst hk
      have hne : ¬ (k0 = k2) := fun hh => h hh.symm
      simp [eraseKey, mapGet, hne, ih]
    · simp only [eraseKey, if_neg hk, mapGet]
      by_cases h2 : k0 = k2
      · simp [h2]
      · simp [h2, ih]

theorem mapGetSetSame (m : Ctx) (k : Str) (v : Value) :
    mapGet (mapSet m k v) k = some v := by
  simp [mapSet, mapGet]

theorem mapGetSetNe (m : Ctx) (k k2 : Str) (v : Value) (h : k2 ≠ k) :
    mapGet (mapSet m k v) k2 = mapGet m k2 := by
  have hne : ¬ (k = k2) := fun hh => h hh.symm
  simp [mapSet, mapGet, hne, mapGetEraseNe m k k2 h]

theorem mapGetNotMem (m : Ctx) (k : Str) (h : k ∉ m.map Prod.fst) :
    mapGet m k = none := by
  induction m with
  | nil => rfl
  | cons e rest ih =>
    obtain ⟨k0, v0⟩ := e
    simp only [List.map_cons, List.mem_cons] at h
    push_neg at h
    obtain ⟨h1, h2⟩ := h
    have h1s : ¬ (k0 = k) := fun hh => h1 hh.symm
    simp [mapGet, h1s, ih h2]

theorem foldlSetGet (m : Ctx) (acc : Ctx) (k : Str) (h : ctxNodup m) :
    mapGet (m.foldl (fun n kv => mapSet n kv.1 kv.2) acc) k =
      (match mapGet m k with
       | some v => some v
       | none => mapGet acc k) := by
  induction m generalizing acc with
  | nil => rfl
  | cons e rest ih =>
    obtain ⟨k0, v0⟩ := e
    simp only [List.foldl_cons]
    have hmap : (k0 :: rest.map Prod.fst).Nodup := by
      simpa only [ctxNodup, List.map_cons] using h
    have hcons := List.nodup_cons.mp hmap
    have hnd : ctxNodup rest := hcons.2
    have hnotmem : k0 ∉ rest.map Prod.fst := hcons.1
    rw [ih _ hnd]
    by_cases hk : k0 = k
    · subst hk
      rw [mapGetNotMem rest k0 hnotmem]
      simp [mapGet, mapGetSetSame]
    · have hgetcons : mapGet ((k0, v0) :: rest) k = mapGet rest k := by
        simp [mapGet, hk]
      rw [hgetcons]
      cases hrk : mapGet rest k with
      | some v => rfl
      | none => simp [mapGetSetNe _ _ _ _ (fun hh => hk hh.symm)]

theorem shallowCopyGet (m : Ctx) (k : Str) (h : ctxNodup m) :
    mapGet (shallowCopyMap m) k = mapGet m k := by
  rw [shallowCopyMap, foldlSetGet m [] k h]
  cases mapGet m k <;> rfl

theorem splitCheckForLt (r : Str) (k : Nat) (h : (splitCheckFor r k).isSome) :
    k < r.length := by
  by_contra hn
  have hge : r.length ≤ k := Nat.le_of_not_lt hn
  have hk : k ≠ 0 := by
    intro hh
    subst hh
    simp [splitCheckFor] at h
  have hdrop : r.drop k = [] := List.drop_eq_nil_of_le hge
  simp only [splitCheckFor, if_neg hk, hdrop] at h
  by_cases hnl : (r.take k).contains '\n'
  · rw [if_pos hnl] at h
    simp at h
  · rw [if_neg hnl] at h
    simp at h

theorem findSomeRevRangeMax {α : Type} (f : Nat → Option α) (n : Nat) :
    ∀ k, k < n → (f k).isSome →
      ∃ j, k ≤ j ∧ j < n ∧ (List.range n).reverse.findSome? f = f j ∧ (f j).isSome ∧
        ∀ m, j < m → m < n → f m = none := by
  induction n with
  | zero => intro k hk _; exact absurd hk (Nat.not_lt_zero k)
  | succ n ih =>
    intro k hk hsome
    have hrange : (List.range (n + 1)).reverse = n :: (List.range n).reverse := by
      rw [List.range_succ, List.reverse_append]
      rfl
    rw [hrange]
    cases hfn : f n with
    | some a =>
      refine ⟨n, ?_, ?_, ?_, ?_, ?_⟩
      · omega
      · omega
      · simp [List.findSome?_cons, hfn]
      · simp [hfn]
      · intro m hm hmlt; omega
    | none =>
      have hkn : k < n := by
        rcases Nat.lt_succ_iff_lt_or_eq.mp hk with hlt | heq
        · exact hlt
        · subst heq
          rw [hfn] at hsome
          simp at hsome
      obtain ⟨j, hj1, hj2, hj3, hj4, hj5⟩ := ih k hkn hsome
      refine ⟨j, hj1, by omega, ?_, hj4, ?_⟩
      · simp [List.findSome?_cons, hfn, hj3]
      · intro m hm hmlt
        rcases Nat.lt_succ_iff_lt_or_eq.mp hmlt with hlt | heq
        · exact hj5 m hm hlt
        · subst heq
          exact hfn

theorem getElemNoneLe {α : Type} (l : List α) (i : Nat) (h : l[i]? = none) :
    l.length ≤ i := by
  by_contra hn
  have hlt := Nat.lt_of_not_le hn
  rw [List.getElem?_eq_getElem hlt] at h
  exact Option.noConfusion h

theorem hasEndInWiden (tokens : List Token) (ty : TokenType) (lo hi lo2 hi2 : Nat)
    (h : hasEndIn tokens ty lo hi) (h1 : lo2 ≤ lo) (h2 : hi ≤ hi2) :
    hasEndIn tokens ty lo2 hi2 := by
  obtain ⟨m, u, hm1, hm2, hm3, hm4⟩ := h
  exact ⟨m, u, by omega, by omega, hm3, hm4⟩

theorem endsCoveredEmpty (tokens : List Token) (lo hi : Nat) (h : hi ≤ lo) :
    endsCovered tokens lo hi := by
  intro j u hj hjlt
  omega

theorem endsCoveredExtendNonOpen (tokens : List Token) (i hi : Nat) (t : Token)
    (hget : tokens[i]? = some t) (hopen : isOpening t.type = false)
    (hcov : endsCovered tokens (i + 1) hi) : endsCovered tokens i hi := by
  intro j u hj hjlt hgu hou
  rcases Nat.eq_or_lt_of_le hj with heq | hlt
  · subst heq
    rw [hget] at hgu
    injection hgu with hu
    subst hu
    rw [hopen] at hou
    exact Bool.noConfusion hou
  · exact hcov j u hlt hjlt hgu hou

theorem endsCoveredExtendOpen (tokens : List Token) (i ni hi : Nat) (t : Token)
    (hget : tokens[i]? = some t)
    (hend : hasEndIn tokens (endOf t.type) (i + 1) ni)
    (hcov1 : endsCovered tokens (i + 1) ni)
    (hcov2 : endsCovered tokens ni hi) : endsCovered tokens i hi := by
  intro j u hj hjlt hgu hou
  rcases Nat.eq_or_lt_of_le hj with heq | hlt
  · subst heq
    rw [hget] at hgu
    injection hgu with hu
    subst hu
    obtain ⟨m, w, hm1, hm2, hm3, hm4⟩ := hend
    exact ⟨m, w, by omega, hm3, hm4⟩
  · by_cases hjni : j < ni
    · exact hcov1 j u hlt hjni hgu hou
    · exact hcov2 j u (Nat.le_of_not_lt hjni) hjlt hgu hou

theorem parseSuccessEnds : ∀ fuel : Nat,
    (∀ tokens i nodes ns, compileLoop fuel tokens i nodes = .ok ns →
       endsCovered tokens i tokens.length) ∧
    (∀ tokens start nd ni, parseIf fuel tokens start = .ok (nd, ni) →
       start + 1 ≤ ni ∧ ni ≤ tokens.length ∧ hasEndIn tokens .TEndIf (start + 1) ni ∧
         endsCovered tokens (start + 1) ni) ∧
    (∀ tokens i start branches elseBody inElse nd ni,
       parseIfLoop fuel tokens i start branches elseBody inElse = .ok (nd, ni) →
       i ≤ ni ∧ ni ≤ tokens.length ∧ hasEndIn tokens .TEndIf i ni ∧ endsCovered tokens i ni) ∧
    (∀ tokens start nd ni, parseFor fuel tokens start = .ok (nd, ni) →
       start + 1 ≤ ni ∧ ni ≤ tokens.length ∧ hasEndIn tokens .TEndFor (start + 1) ni ∧
         endsCovered tokens (start + 1) ni) ∧
    (∀ tokens i start indexVar itemVar listExpr body nd ni,
       parseForLoop fuel tokens i start indexVar itemVar listExpr body = .ok (nd, ni) →
       i ≤ ni ∧ ni ≤ tokens.length ∧ hasEndIn tokens .TEndFor i ni ∧ endsCovered tokens i ni) ∧
    (∀ tokens start nd ni, parseSwitch fuel tokens start = .ok (nd, ni) →
       start + 1 ≤ ni ∧ ni ≤ tokens.length ∧ hasEndIn tokens .TEndSwitch (start + 1) ni ∧
         endsCovered tokens (start + 1) ni) ∧
    (∀ tokens i start expr cases dflt curCond curBody nd ni,
       parseSwitchLoop fuel tokens i start expr cases dflt curCond curBody = .ok (nd, ni) →
       i ≤ ni ∧ ni ≤ tokens.length ∧ hasEndIn tokens .TEndSwitch i ni ∧ endsCovered tokens i ni) := by
  intro fuel
  induction fuel with
  | zero =>
    refine ⟨?_, ?_, ?_, ?_, ?_, ?_, ?_⟩
    · intro tokens i nodes ns h
      exact Except.noConfusion h
    · intro tokens start nd ni h
      exact Except.noConfusion h
    · intro tokens i start branches elseBody inElse nd ni h
      exact Except.noConfusion h
    · intro tokens start nd ni h
      exact Except.noConfusion h
    · intro tokens i start indexVar itemVar listExpr body nd ni h
      exact Except.noConfusion h
    · intro tokens start nd ni h
      exact Except.noConfusion h
    · intro tokens i start expr cases dflt curCond curBody nd ni h
      exact Except.noConfusion h
  | succ fuel ih =>
    obtain ⟨ihTop, ihIf, ihIfLoop, ihFor, ihForLoop, ihSwitch, ihSwitchLoop⟩ := ih
    refine ⟨?_, ?_, ?_, ?_, ?_, ?_, ?_⟩
    · -- compileLoop
      intro tokens i nodes ns h
      unfold compileLoop at h
      split at h
      · rename_i hget
        exact endsCoveredEmpty tokens i tokens.length (getElemNoneLe tokens i hget)
      · rename_i t hget
        split at h
        · -- TText
          rename_i hteq
          have hopen : isOpening t.type = false := by rw [hteq]; rfl
          exact endsCoveredExtendNonOpen tokens i tokens.length t hget hopen
            (ihTop tokens (i + 1) _ ns h)
        · -- TVar
          rename_i hteq
          have hopen : isOpening t.type = false := by rw [hteq]; rfl
          exact endsCoveredExtendNonOpen tokens i tokens.length t hget hopen
            (ihTop tokens (i + 1) _ ns h)
        · -- TIf
          rename_i hteq
          split at h
          · exact Except.noConfusion h
          · rename_i nd0 ni0 hp
            obtain ⟨hle1, hlen1, hend1, hcov1⟩ := ihIf tokens i nd0 ni0 hp
            have hcov2 := ihTop tokens ni0 _ ns h
            have hend : hasEndIn tokens (endOf t.type) (i + 1) ni0 := by
              rw [hteq]; exact hend1
            exact endsCoveredExtendOpen tokens i ni0 tokens.length t hget hend hcov1 hcov2
        · -- TFor
          rename_i hteq
          split at h
          · exact Except.noConfusion h
          · rename_i nd0 ni0 hp
            obtain ⟨hle1, hlen1, hend1, hcov1⟩ := ihFor tokens i nd0 ni0 hp
            have hcov2 := ihTop tokens ni0 _ ns h
            have hend : hasEndIn tokens (endOf t.type) (i + 1) ni0 := by
              rw [hteq]; exact hend1
            exact endsCoveredExtendOpen tokens i ni0 tokens.length t hget hend hcov1 hcov2
        · -- TSwitch
          rename_i hteq
          split at h
          · exact Except.noConfusion h
          · rename_i nd0 ni0 hp
            obtain ⟨hle1, hlen1, hend1, hcov1⟩ := ihSwitch tokens i nd0 ni0 hp
            have hcov2 := ihTop tokens ni0 _ ns h
            have hend : hasEndIn tokens (endOf t.type) (i + 1) ni0 := by
              rw [hteq]; exact hend1
            exact endsCoveredExtendOpen tokens i ni0 tokens.length t hget hend hcov1 hcov2
        · -- default: hard error
          exact Except.noConfusion h
    · -- parseIf entry
      intro tokens start nd ni h
      unfold parseIf at h
      exact ihIfLoop tokens (start + 1) start _ _ _ nd ni h
    · -- parseIfLoop
      intro tokens i start branches elseBody inElse nd ni h
      unfold parseIfLoop at h
      split at h
      · exact Except.noConfusion h
      · rename_i t hget
        have hilt : i < tokens.length := getElemSomeLt tokens i t hget
        split at h
        · -- TIf
          rename_i hteq
          split at h
          · exact Except.noConfusion h
          · rename_i nd0 ni0 hp
            obtain ⟨hle1, hlen1, hend1, hcov1⟩ := ihIf tokens i nd0 ni0 hp
            obtain ⟨hle2, hlen2, hend2, hcov2⟩ := ihIfLoop tokens ni0 start _ _ _ nd ni h
            refine ⟨by omega, hlen2, hasEndInWiden tokens _ ni0 ni i ni hend2 (by omega) (by omega), ?_⟩
            have hend : hasEndIn tokens (endOf t.type) (i + 1) ni0 := by
              rw [hteq]; exact hend1
            exact endsCoveredExtendOpen tokens i ni0 ni t hget hend hcov1 hcov2
        · -- TEndIf
          rename_i hteq
          injection h with hpair
          injection hpair with hnd hni
          subst hni
          refine ⟨by omega, by omega, ⟨i, t, by omega, by omega, hget, hteq⟩, ?_⟩
          have hopen : isOpening t.type = false := by rw [hteq]; rfl
          exact endsCoveredExtendNonOpen tokens i (i + 1) t hget hopen
            (endsCoveredEmpty tokens (i + 1) (i + 1) (by omega))
        · -- TElseIf
          rename_i hteq
          obtain ⟨hle2, hlen2, hend2, hcov2⟩ := ihIfLoop tokens (i + 1) start _ _ _ nd ni h
          refine ⟨by omega, hlen2, hasEndInWiden tokens _ (i + 1) ni i ni hend2 (by omega) (by omega), ?_⟩
          have hopen : isOpening t.type = false := by rw [hteq]; rfl
          exact endsCoveredExtendNonOpen tokens i ni t hget hopen hcov2
        · -- TElse
          rename_i hteq
          obtain ⟨hle2, hlen2, hend2, hcov2⟩ := ihIfLoop tokens (i + 1) start _ _ _ nd ni h
          refine ⟨by omega, hlen2, hasEndInWiden tokens _ (i + 1) ni i ni hend2 (by omega) (by omega), ?_⟩
          have hopen : isOpening t.type = false := by rw [hteq]; rfl
          exact endsCoveredExtendNonOpen tokens i ni t hget hopen hcov2
        · -- TFor
          rename_i hteq
          split at h
          · exact Except.noConfusion h
          · rename_i nd0 ni0 hp
            obtain ⟨hle1, hlen1, hend1, hcov1⟩ := ihFor tokens i nd0 ni0 hp
            obtain ⟨hle2, hlen2, hend2, hcov2⟩ := ihIfLoop tokens ni0 start _ _ _ nd ni h
            refine ⟨by omega, hlen2, hasEndInWiden tokens _ ni0 ni i ni hend2 (by omega) (by omega), ?_⟩
            have hend : hasEndIn tokens (endOf t.type) (i + 1) ni0 := by
              rw [hteq]; exact hend1
            exact endsCoveredExtendOpen tokens i ni0 ni t hget hend hcov1 hcov2
        · -- TSwitch
          rename_i hteq
          split at h
          · exact Except.noConfusion h
          · rename_i nd0 ni0 hp
            obtain ⟨hle1, hlen1, hend1, hcov1⟩ := ihSwitch tokens i nd0 ni0 hp
            obtain ⟨hle2, hlen2, hend2, hcov2⟩ := ihIfLoop tokens ni0 start _ _ _ nd ni h
            refine ⟨by omega, hlen2, hasEndInWiden tokens _ ni0 ni i ni hend2 (by omega) (by omega), ?_⟩
            have hend : hasEndIn tokens (endOf t.type) (i + 1) ni0 := by
              rw [hteq]; exact hend1
            exact endsCoveredExtendOpen tokens i ni0 ni t hget hend hcov1 hcov2
        · -- TText
          rename_i hteq
          obtain ⟨hle2, hlen2, hend2, hcov2⟩ := ihIfLoop tokens (i + 1) start _ _ _ nd ni h
          refine ⟨by omega, hlen2, hasEndInWiden tokens _ (i + 1) ni i ni hend2 (by omega) (by omega), ?_⟩
          have hopen : isOpening t.type = false := by rw [hteq]; rfl
          exact endsCoveredExtendNonOpen tokens i ni t hget hopen hcov2
        · -- TVar
          rename_i hteq
          obtain ⟨hle2, hlen2, hend2, hcov2⟩ := ihIfLoop tokens (i + 1) start _ _ _ nd ni h
          refine ⟨by omega, hlen2, hasEndInWiden tokens _ (i + 1) ni i ni hend2 (by omega) (by omega), ?_⟩
          have hopen : isOpening t.type = false := by rw [hteq]; rfl
          exact endsCoveredExtendNonOpen tokens i ni t hget hopen hcov2
        · -- default error
          exact Except.noConfusion h
    · -- parseFor entry
      intro tokens start nd ni h
      unfold parseFor at h
      repeat' split at h
      all_goals dsimp only at h
      all_goals repeat' split at h
      all_goals
        first
          | exact Except.noConfusion h
          | exact ihForLoop tokens (start + 1) start _ _ _ _ nd ni h
    · -- parseForLoop
      intro tokens i start indexVar itemVar listExpr body nd ni h
      unfold parseForLoop at h
      split at h
      · exact Except.noConfusion h
      · rename_i t hget
        have hilt : i < tokens.length := getElemSomeLt tokens i t hget
        split at h
        · -- TFor
          rename_i hteq
          split at h
          · exact Except.noConfusion h
          · rename_i nd0 ni0 hp
            obtain ⟨hle1, hlen1, hend1, hcov1⟩ := ihFor tokens i nd0 ni0 hp
            obtain ⟨hle2, hlen2, hend2, hcov2⟩ := ihForLoop tokens ni0 start _ _ _ _ nd ni h
            refine ⟨by omega, hlen2, hasEndInWiden tokens _ ni0 ni i ni hend2 (by omega) (by omega), ?_⟩
            have hend : hasEndIn tokens (endOf t.type) (i + 1) ni0 := by
              rw [hteq]; exact hend1
            exact endsCoveredExtendOpen tokens i ni0 ni t hget hend hcov1 hcov2
        · -- TEndFor
          rename_i hteq
          injection h with hpair
          injection hpair with hnd hni
          subst hni
          refine ⟨by omega, by omega, ⟨i, t, by omega, by omega, hget, hteq⟩, ?_⟩
          have hopen : isOpening t.type = false := by rw [hteq]; rfl
          exact endsCoveredExtendNonOpen tokens i (i + 1) t hget hopen
            (endsCoveredEmpty tokens (i + 1) (i + 1) (by omega))
        · -- TIf
          rename_i hteq
          split at h
          · exact Except.noConfusion h
          · rename_i nd0 ni0 hp
            obtain ⟨hle1, hlen1, hend1, hcov1⟩ := ihIf tokens i nd0 ni0 hp
            obtain ⟨hle2, hlen2, hend2, hcov2⟩ := ihForLoop tokens ni0 start _ _ _ _ nd ni h
            refine ⟨by omega, hlen2, hasEndInWiden tokens _ ni0 ni i ni hend2 (by omega) (by omega), ?_⟩
            have hend : hasEndIn tokens (endOf t.type) (i + 1) ni0 := by
              rw [hteq]; exact hend1
            exact endsCoveredExtendOpen tokens i ni0 ni t hget hend hcov1 hcov2
        · -- TSwitch
          rename_i hteq
          split at h
          · exact Except.noConfusion h
          · rename_i nd0 ni0 hp
            obtain ⟨hle1, hlen1, hend1, hcov1⟩ := ihSwitch tokens i nd0 ni0 hp
            obtain ⟨hle2, hlen2, hend2, hcov2⟩ := ihForLoop tokens ni0 start _ _ _ _ nd ni h
            refine ⟨by omega, hlen2, hasEndInWiden tokens _ ni0 ni i ni hend2 (by omega) (by omega), ?_⟩
            have hend : hasEndIn tokens (endOf t.type) (i + 1) ni0 := by
              rw [hteq]; exact hend1
            exact endsCoveredExtendOpen tokens i ni0 ni t hget hend hcov1 hcov2
        · -- TText
          rename_i hteq
          obtain ⟨hle2, hlen2, hend2, hcov2⟩ := ihForLoop tokens (i + 1) start _ _ _ _ nd ni h
          refine ⟨by omega, hlen2, hasEndInWiden tokens _ (i + 1) ni i ni hend2 (by omega) (by omega), ?_⟩
          have hopen : isOpening t.type = false := by rw [hteq]; rfl
          exact endsCoveredExtendNonOpen tokens i ni t hget hopen hcov2
        · -- TVar
          rename_i hteq
          obtain ⟨hle2, hlen2, hend2, hcov2⟩ := ihForLoop tokens (i + 1) start _ _ _ _ nd ni h
          refine ⟨by omega, hlen2, hasEndInWiden tokens _ (i + 1) ni i ni hend2 (by omega) (by omega), ?_⟩
          have hopen : isOpening t.type = false := by rw [hteq]; rfl
          exact endsCoveredExtendNonOpen tokens i ni t hget hopen hcov2
        · -- default error
          exact Except.noConfusion h
    · -- parseSwitch entry
      intro tokens start nd ni h
      unfold parseSwitch at h
      exact ihSwitchLoop tokens (start + 1) start _ _ _ _ _ nd ni h
    · -- parseSwitchLoop
      intro tokens i start expr cases dflt curCond curBody nd ni h
      unfold parseSwitchLoop at h
      split at h
      · exact Except.noConfusion h
      · rename_i t hget
        have hilt : i < tokens.length := getElemSomeLt tokens i t hget
        split at h
        · -- TSwitch
          rename_i hteq
          split at h
          · exact Except.noConfusion h
          · rename_i nd0 ni0 hp
            obtain ⟨hle1, hlen1, hend1, hcov1⟩ := ihSwitch tokens i nd0 ni0 hp
            obtain ⟨hle2, hlen2, hend2, hcov2⟩ := ihSwitchLoop tokens ni0 start _ _ _ _ _ nd ni h
            refine ⟨by omega, hlen2, hasEndInWiden tokens _ ni0 ni i ni hend2 (by omega) (by omega), ?_⟩
            have hend : hasEndIn tokens (endOf t.type) (i + 1) ni0 := by
              rw [hteq]; exact hend1
            exact endsCoveredExtendOpen tokens i ni0 ni t hget hend hcov1 hcov2
        · -- TEndSwitch
          rename_i hteq
          injection h with hpair
          injection hpair with hnd hni
          subst hni
          refine ⟨by omega, by omega, ⟨i, t, by omega, by omega, hget, hteq⟩, ?_⟩
          have hopen : isOpening t.type = false := by rw [hteq]; rfl
          exact endsCoveredExtendNonOpen tokens i (i + 1) t hget hopen
            (endsCoveredEmpty tokens (i + 1) (i + 1) (by omega))
        · -- TCase
          rename_i hteq
          obtain ⟨hle2, hlen2, hend2, hcov2⟩ := ihSwitchLoop tokens (i + 1) start _ _ _ _ _ nd ni h
          refine ⟨by omega, hlen2, hasEndInWiden tokens _ (i + 1) ni i ni hend2 (by omega) (by omega), ?_⟩
          have hopen : isOpening t.type = false := by rw [hteq]; rfl
          exact endsCoveredExtendNonOpen tokens i ni t hget hopen hcov2
        · -- TDefault
          rename_i hteq
          obtain ⟨hle2, hlen2, hend2, hcov2⟩ := ihSwitchLoop tokens (i + 1) start _ _ _ _ _ nd ni h
          refine ⟨by omega, hlen2, hasEndInWiden tokens _ (i + 1) ni i ni hend2 (by omega) (by omega), ?_⟩
          have hopen : isOpening t.type = false := by rw [hteq]; rfl
          exact endsCoveredExtendNonOpen tokens i ni t hget hopen hcov2
        · -- TIf
          rename_i hteq
          split at h
          · exact Except.noConfusion h
          · rename_i nd0 ni0 hp
            obtain ⟨hle1, hlen1, hend1, hcov1⟩ := ihIf tokens i nd0 ni0 hp
            obtain ⟨hle2, hlen2, hend2, hcov2⟩ := ihSwitchLoop tokens ni0 start _ _ _ _ _ nd ni h
            refine ⟨by omega, hlen2, hasEndInWiden tokens _ ni0 ni i ni hend2 (by omega) (by omega), ?_⟩
            have hend : hasEndIn tokens (endOf t.type) (i + 1) ni0 := by
              rw [hteq]; exact hend1
            exact endsCoveredExtendOpen tokens i ni0 ni t hget hend hcov1 hcov2
        · -- TFor
          rename_i hteq
          split at h
          · exact Except.noConfusion h
          · rename_i nd0 ni0 hp
            obtain ⟨hle1, hlen1, hend1, hcov1⟩ := ihFor tokens i nd0 ni0 hp
            obtain ⟨hle2, hlen2, hend2, hcov2⟩ := ihSwitchLoop tokens ni0 start _ _ _ _ _ nd ni h
            refine ⟨by omega, hlen2, hasEndInWiden tokens _ ni0 ni i ni hend2 (by omega) (by omega), ?_⟩
            have hend : hasEndIn tokens (endOf t.type) (i + 1) ni0 := by
              rw [hteq]; exact hend1
            exact endsCoveredExtendOpen tokens i ni0 ni t hget hend hcov1 hcov2
        · -- TText
          rename_i hteq
          obtain ⟨hle2, hlen2, hend2, hcov2⟩ := ihSwitchLoop tokens (i + 1) start _ _ _ _ _ nd ni h
          refine ⟨by omega, hlen2, hasEndInWiden tokens _ (i + 1) ni i ni hend2 (by omega) (by omega), ?_⟩
          have hopen : isOpening t.type = false := by rw [hteq]; rfl
          exact endsCoveredExtendNonOpen tokens i ni t hget hopen hcov2
        · -- TVar
          rename_i hteq
          obtain ⟨hle2, hlen2, hend2, hcov2⟩ := ihSwitchLoop tokens (i + 1) start _ _ _ _ _ nd ni h
          refine ⟨by omega, hlen2, hasEndInWiden tokens _ (i + 1) ni i ni hend2 (by omega) (by omega), ?_⟩
          have hopen : isOpening t.type = false := by rw [hteq]; rfl
          exact endsCoveredExtendNonOpen tokens i ni t hget hopen hcov2
        · -- default error
          exact Except.noConfusion h

theorem assocGetSetSame {α : Type} (m : List (Str × α)) (k : Str) (v : α) :
    assocGet (assocSet m k v) k = some v := by
  simp [assocSet, assocGet]

-- -------------------- Claim theorems --------------------

/-- C1: the spec states that a template containing no tag delimiters
renders verbatim; the code is wrong on it.  `tokenize` prepends the open
marker to every split chunk lacking a close marker — including the first
chunk of `strings.Split`, which was never preceded by an open marker —
so the delimiter-free file content `hello` renders as `<` `{` `hello`.
The first two conjuncts certify the input holds no open and no close
marker; the last exhibits the divergence from the spec's verbatim
output. -/
theorem c1_no_tags_render_divergence :
    splitFirst2 '<' (Char.ofNat 123) ("hello".toList) = none ∧
    splitFirst2 (Char.ofNat 125) '>' ("hello".toList) = none ∧
    Render [("/t.html".toList, ("hello".toList, 5))] [] ("/t.html".toList) [] =
      (.ok ("<\x7bhello".toList),
       [("/t.html".toList, ⟨"/t.html".toList, [.text ("<\x7bhello".toList)], 5⟩)]) ∧
    "<\x7bhello".toList ≠ "hello".toList := by
  refine ⟨rfl, rfl, rfl, by decide⟩

/-- C3: chained `and`/`or` evaluate strictly left to right with no
precedence: `a or b and c` computes `(a or b) and c` for every boolean
assignment; at `a = true, b = false, c = false` the code yields `false`
where standard precedence (`a or (b and c)`) would yield `true`. -/
theorem c3_chained_logic_left_to_right :
    (∀ a b c : Bool,
      evalCondition ("a or b and c".toList)
        [("a".toList, .vBool a), ("b".toList, .vBool b), ("c".toList, .vBool c)] =
        .ok ((a || b) && c)) ∧
    evalCondition ("a or b and c".toList)
      [("a".toList, .vBool true), ("b".toList, .vBool false), ("c".toList, .vBool false)] =
      .ok false ∧
    (true || (false && false)) = true := by
  refine ⟨by decide, by decide, rfl⟩

/-- C5 (counterexample): the claim says `<` `{` `frobnicate` `}` `>` is
re-emitted verbatim; in fact the bare word matches the variable grammar
`varPattern`, so it tokenizes as a `TVar` token and renders as empty
text (failed lookup, no default) — not as the original tag text. -/
theorem c5_counterexample :
    tokenize ("<\x7bfrobnicate\x7d>".toList) =
      [{ type := .TVar, value := "frobnicate".toList, raw := "frobnicate".toList }] ∧
    (Render [("/t".toList, ("<\x7bfrobnicate\x7d>".toList, 1))] [] ("/t".toList) []).1 =
      .ok [] ∧
    ([] : Str) ≠ "<\x7bfrobnicate\x7d>".toList := by
  refine ⟨rfl, rfl, by decide⟩

/-- C5 (amended): `frobnicate` matches the variable grammar, so the tag
tokenizes as a Variable token and renders as empty text; only a tag
matching none of the grammars — the variable grammar included, e.g. a
body with a non-word character — is re-emitted verbatim with its
delimiters. -/
theorem c5_amended_var_grammar_match :
    tokenize ("<\x7bfrobnicate\x7d>".toList) =
      [{ type := .TVar, value := "frobnicate".toList, raw := "frobnicate".toList }] ∧
    (Render [("/t".toList, ("<\x7bfrobnicate\x7d>".toList, 1))] [] ("/t".toList) []).1 =
      .ok [] ∧
    tokenize ("<\x7bfrob!\x7d>".toList) =
      [{ type := .TText, value := "<\x7bfrob!\x7d>".toList, raw := "frob!".toList }] ∧
    (Render [("/u".toList, ("<\x7bfrob!\x7d>".toList, 1))] [] ("/u".toList) []).1 =
      .ok ("<\x7bfrob!\x7d>".toList) := by
  refine ⟨rfl, rfl, rfl, rfl⟩

/-- C6 (counterexample): the claim says a condition with a comparison
operator and no right-hand operand fails at compile time; in fact
`<` `{` `if x ==` `}` `>` ... compiles successfully — `compileTokens`
never inspects condition strings. -/
theorem c6_counterexample :
    compileTokens (tokenize ("<\x7bif x ==\x7d>ok<\x7b/if\x7d>".toList)) =
      .ok [.ifN [("x ==".toList, [.text ("ok".toList)])] []] := rfl

/-- C6 (amended): compilation succeeds — condition syntax is not checked
at compile time, and the compiled template is stored in the cache; the
malformed comparison surfaces only at evaluation time, where the regex
split yields an empty right-hand operand (resolved as the empty-string
literal) and the comparison proceeds without error. -/
theorem c6_amended_no_compile_time_condition_check :
    compileTokens (tokenize ("<\x7bif x ==\x7d>ok<\x7b/if\x7d>".toList)) =
      .ok [.ifN [("x ==".toList, [.text ("ok".toList)])] []] ∧
    getOrCompile [("/t".toList, ("<\x7bif x ==\x7d>ok<\x7b/if\x7d>".toList, 3))] []
        ("/t".toList) =
      (.ok ⟨"/t".toList, [.ifN [("x ==".toList, [.text ("ok".toList)])] []], 3⟩,
       [("/t".toList, ⟨"/t".toList, [.ifN [("x ==".toList, [.text ("ok".toList)])] []], 3⟩)]) ∧
    compOpSplit ("x ==".toList) = some ("==".toList, "x".toList, []) ∧
    evalCondition ("x ==".toList) [] = .ok false := by
  refine ⟨rfl, rfl, by decide, by decide⟩

/-- C7 (counterexample): the claim says ordering a boolean against a
boolean reports an error; in fact `compareValues true false >` returns
`ok true` (the boolean section only handles equality and Go's switch
falls through to the lexicographic string comparison,
`"true" > "false"`). -/
theorem c7_counterexample :
    compareValues (.vBool true) (.vBool false) (">".toList) = .ok true := by decide

/-- C7 (amended): for two booleans and any ordering operator the
comparison is not an error: it falls through to the string section and
returns the lexicographic comparison of the `%v` forms
`true` / `false`. -/
theorem c7_amended_bool_ordering_falls_to_strings (a b : Bool) (op : Str)
    (h : op = ">".toList ∨ op = "<".toList ∨ op = ">=".toList ∨ op = "<=".toList) :
    compareValues (.vBool a) (.vBool b) op = compareStrings (.vBool a) (.vBool b) op ∧
    ∃ r : Bool, compareValues (.vBool a) (.vBool b) op = .ok r ∧
      opCmpStr (goToString (.vBool a)) (goToString (.vBool b)) op = some r := by
  rcases h with rfl | rfl | rfl | rfl <;> cases a <;> cases b <;>
    exact ⟨rfl, _, rfl, rfl⟩

/-- Witness for the amended C7 at a concrete input. -/
theorem c7_amended_witness :
    compareValues (.vBool true) (.vBool false) ("<".toList) =
      compareStrings (.vBool true) (.vBool false) ("<".toList) ∧
    ∃ r : Bool, compareValues (.vBool true) (.vBool false) ("<".toList) = .ok r ∧
      opCmpStr (goToString (.vBool true)) (goToString (.vBool false)) ("<".toList) = some r :=
  c7_amended_bool_ordering_falls_to_strings true false ("<".toList) (Or.inr (Or.inl rfl))

/-- C2: with the file statted at timestamp `mod`, a cache hit whose
stored timestamp equals `mod` is returned as-is with the cache untouched
— the conclusion never mentions `content`, so the file contents play no
part; otherwise (no entry, or a differing timestamp) the content is
read, tokenized and parsed: a parse error is returned with the cache
untouched, success returns a fresh `Template` of the path, AST and new
timestamp and stores it, replacing any prior entry for the key. -/
theorem c2_getOrCompile_cache_discipline (fs : FS) (cache : Cache) (path : Str)
    (content : Str) (mod : Int) (hfs : assocGet fs path = some (content, mod)) :
    (∀ tpl, assocGet cache path = some tpl → tpl.modTime = mod →
       getOrCompile fs cache path = (.ok tpl, cache)) ∧
    ((assocGet cache path = none ∨
        (∃ tpl, assocGet cache path = some tpl ∧ tpl.modTime ≠ mod)) →
      (∀ e, compileTokens (tokenize content) = .error e →
         getOrCompile fs cache path = (.error (.parseErr e), cache)) ∧
      (∀ nodes, compileTokens (tokenize content) = .ok nodes →
         getOrCompile fs cache path =
           (.ok ⟨path, nodes, mod⟩, assocSet cache path ⟨path, nodes, mod⟩) ∧
         assocGet (assocSet cache path ⟨path, nodes, mod⟩) path =
           some (⟨path, nodes, mod⟩ : Template))) := by
  constructor
  · intro tpl hc hmod
    simp [getOrCompile, hfs, hc, hmod]
  · intro hmiss
    constructor
    · intro e he
      rcases hmiss with hnone | ⟨tpl, hc, hne⟩
      · simp [getOrCompile, hfs, hnone, he]
      · simp [getOrCompile, hfs, hc, hne, he]
    · intro nodes hn
      refine ⟨?_, assocGetSetSame cache path _⟩
      rcases hmiss with hnone | ⟨tpl, hc, hne⟩
      · simp [getOrCompile, hfs, hnone, hn]
      · simp [getOrCompile, hfs, hc, hne, hn]

/-- Witness for C2 at a concrete input: a cache hit with an equal
timestamp is returned unchanged. -/
theorem c2_witness :
    getOrCompile [("/p".toList, ("x".toList, 7))]
        [("/p".toList, ⟨"/p".toList, [.text ("old".toList)], 7⟩)] ("/p".toList) =
      (.ok ⟨"/p".toList, [.text ("old".toList)], 7⟩,
       [("/p".toList, ⟨"/p".toList, [.text ("old".toList)], 7⟩)]) :=
  (c2_getOrCompile_cache_discipline [("/p".toList, ("x".toList, 7))]
    [("/p".toList, ⟨"/p".toList, [.text ("old".toList)], 7⟩)] ("/p".toList)
    ("x".toList) 7 rfl).1 ⟨"/p".toList, [.text ("old".toList)], 7⟩ rfl rfl

/-- C4 (counterexample): the claim says the `for` header splits at the
first standalone `in`; on `for x in a in b` the tokenizer produces the
value `x in a:b` (item-spec `x in a`, expression `b`), the split at the
last `in`, not `x:a in b` as a first-`in` split would give. -/
theorem c4_counterexample :
    tokenize ("<\x7bfor x in a in b\x7d>t<\x7b/for\x7d>".toList) =
      [{ type := .TFor, value := "x in a:b".toList, raw := "for x in a in b".toList },
       { type := .TText, value := "t".toList },
       { type := .TEndFor, raw := "/for".toList }] ∧
    "x in a:b".toList ≠ "x:a in b".toList := by
  refine ⟨rfl, by decide⟩

/-- C4 (amended): the greedy regex maximises the first capture, so the
`for` tail splits at the last position that still reads as whitespace,
`in`, whitespace, nonempty expression: whenever any valid split position
exists, the tokenizer's match is a valid split position at least as
large, and every larger position is invalid. -/
theorem c4_amended_split_at_last_in (r : Str) (k : Nat)
    (h : (splitCheckFor r k).isSome) :
    ∃ j, k ≤ j ∧ forTailMatch r = splitCheckFor r j ∧ (splitCheckFor r j).isSome ∧
      ∀ m, j < m → splitCheckFor r m = none := by
  have hk := splitCheckForLt r k h
  obtain ⟨j, hj1, hj2, hj3, hj4, hj5⟩ :=
    findSomeRevRangeMax (splitCheckFor r) r.length k hk h
  refine ⟨j, hj1, hj3, hj4, ?_⟩
  intro m hm
  by_cases hmr : m < r.length
  · exact hj5 m hm hmr
  · have hns : ¬ (splitCheckFor r m).isSome := fun hs => hmr (splitCheckForLt r m hs)
    exact Option.not_isSome_iff_eq_none.mp hns

/-- Witness for the amended C4 on the two-`in` header tail. -/
theorem c4_amended_witness :
    ∃ j, 1 ≤ j ∧
      forTailMatch ("x in a in b".toList) = splitCheckFor ("x in a in b".toList) j ∧
      (splitCheckFor ("x in a in b".toList) j).isSome ∧
      ∀ m, j < m → splitCheckFor ("x in a in b".toList) m = none :=
  c4_amended_split_at_last_in ("x in a in b".toList) 1 (by decide)

/-- C8 (counterexample): the claim says a missing matching end token
always yields a parse error identifying the start token; the token
stream of `<` `{` `if x` `}` `>` `<` `{` `/for` `}` `>` has a `TIf`
opener with no `TEndIf` anywhere after it, and `compileTokens` does
error — but with the unexpected-token-inside-if error, which carries no
start index. -/
theorem c8_counterexample :
    (tokenize ("<\x7bif x\x7d><\x7b/for\x7d>".toList)).map Token.type =
      [.TIf, .TEndFor] ∧
    ((tokenize ("<\x7bif x\x7d><\x7b/for\x7d>".toList)).drop 1).all
      (fun u => u.type != .TEndIf) = true ∧
    compileTokens (tokenize ("<\x7bif x\x7d><\x7b/for\x7d>".toList)) =
      .error (.unexpectedInIf .TEndFor) ∧
    identifiesStart (.unexpectedInIf .TEndFor) = false := by
  refine ⟨rfl, rfl, rfl, rfl⟩

/-- C8 (amended): whenever some If/For/Switch opener is never followed
by an end token of its kind, `compileTokens` returns a hard parse error
and no AST — though not necessarily the unclosed-construct error that
identifies the start token (a structurally invalid token inside the
construct surfaces first, as the counterexample shows). -/
theorem c8_amended_missing_end_is_error (tokens : List Token)
    (h : ∃ (i : Nat) (t : Token), tokens[i]? = some t ∧ isOpening t.type = true ∧
      ∀ (j : Nat) (u : Token), i < j → tokens[j]? = some u → u.type ≠ endOf t.type) :
    ∃ e, compileTokens tokens = .error e := by
  obtain ⟨i, t, hget, hopen, hno⟩ := h
  cases hres : compileTokens tokens with
  | error e => exact ⟨e, rfl⟩
  | ok ns =>
    exfalso
    have hcov := (parseSuccessEnds (2 * tokens.length + 4)).1 tokens 0 [] ns hres
    have hilt : i < tokens.length := getElemSomeLt tokens i t hget
    obtain ⟨m, u, hm1, hm2, hm3⟩ := hcov i t (Nat.zero_le i) hilt hget hopen
    exact hno m u hm1 hm2 hm3

/-- Witness for the amended C8: a lone unclosed `TIf` errors. -/
theorem c8_amended_witness :
    ∃ e, compileTokens [{ type := TokenType.TIf, value := "x".toList }] = .error e :=
  c8_amended_missing_end_is_error _
    ⟨0, { type := TokenType.TIf, value := "x".toList }, rfl, rfl, by
      intro j u hj hget hty
      have hlt := getElemSomeLt _ j u hget
      simp at hlt
      omega⟩

/-- C10: `evalConditionWithValue` binds the reserved subject variable
only into `switchCtx`, a shallow copy of the caller's map: in the
derived context the reserved key reads the subject and every other key
reads exactly what the original map holds, and the original map — a
pure value in this embedding, never written through — keeps exactly its
entries. -/
theorem c10_switch_ctx_frame (data : Ctx) (value : Value) (h : ctxNodup data) :
    mapGet (switchCtx value data) ("__switch__".toList) = some value ∧
    (∀ k, k ≠ "__switch__".toList → mapGet (switchCtx value data) k = mapGet data k) := by
  constructor
  · exact mapGetSetSame (shallowCopyMap data) ("__switch__".toList) value
  · intro k hk
    unfold switchCtx
    rw [mapGetSetNe (shallowCopyMap data) ("__switch__".toList) k value hk]
    exact shallowCopyGet data k h

/-- Witness for C10 at a concrete input. -/
theorem c10_witness :
    mapGet (switchCtx (.vBool true) [("a".toList, .vInt 1)]) ("__switch__".toList) =
      some (.vBool true) ∧
    mapGet (switchCtx (.vBool true) [("a".toList, .vInt 1)]) ("a".toList) =
      mapGet [("a".toList, .vInt 1)] ("a".toList) := by
  have h := c10_switch_ctx_frame [("a".toList, .vInt 1)] (.vBool true)
    (by simp [ctxNodup])
  exact ⟨h.1, h.2 ("a".toList) (by decide)⟩
